import Mathlib

/-!
A shallow embedding of the FIFO lot-accounting and wash-sale detection engine
of `src/wash-sale-engine.js` (class `WashSaleEngine`), together with the input
validation of the trade form (`validateForm` in `src/app.js`).

Modelling conventions:
* JS numbers are modelled as rationals (`ℚ`); the arithmetic the engine
  performs (sums, products, divisions by split ratios) is exact on the
  inputs considered here.
* Dates are date-only in the source (parsed to UTC midnight, compared and
  shifted by whole multiples of 24h in milliseconds), so they are modelled
  as integers counting days.
* The identifiers the source builds from timestamps and random numbers are
  modelled as `Nat` parameters supplied by the caller.
* The engine's mutable state (`this.transactions`, `this.shareLots`,
  `this.stockSplits`) is passed explicitly; mutating methods return the new
  state.  `localStorage` persistence and `console` logging are omitted.
-/

/-- Transaction type: the source's `type` field, one of `'buy'` or `'sell'`. -/
inductive TxType where
  | buy
  | sell
  deriving DecidableEq, Repr

/-- A normalized transaction record (see `addTransaction`): symbol uppercased,
`total = quantity * price`, `appliedSplits` the split ids already folded into
`quantity`/`price` by `applyStockSplitsToLots`. -/
structure Transaction where
  id : Nat
  symbol : String
  type : TxType
  quantity : ℚ
  price : ℚ
  total : ℚ
  date : ℤ
  appliedSplits : List Nat
  deriving DecidableEq, Repr

/-- A registered stock split (`addStockSplit`). -/
structure StockSplit where
  id : Nat
  symbol : String
  splitDate : ℤ
  ratio : ℚ
  deriving DecidableEq, Repr

/-- A share lot created from a buy transaction (`createShareLot`). -/
structure ShareLot where
  id : Nat
  symbol : String
  purchaseDate : ℤ
  originalQuantity : ℚ
  remainingQuantity : ℚ
  costPerShare : ℚ
  purchaseTransactionId : Nat
  appliedSplits : List Nat
  deriving DecidableEq, Repr

/-- Comparator of `getAvailableShareLots` and of the final sort in
`getShareLotsAtDate`: ascending purchase date. -/
def lotDateLe (a b : ShareLot) : Prop :=
  a.purchaseDate ≤ b.purchaseDate

instance : DecidableRel lotDateLe := fun a b =>
  inferInstanceAs (Decidable (a.purchaseDate ≤ b.purchaseDate))

instance : IsTotal ShareLot lotDateLe :=
  ⟨fun a b => le_total a.purchaseDate b.purchaseDate⟩

instance : IsTrans ShareLot lotDateLe :=
  ⟨fun _ _ _ h1 h2 => le_trans h1 h2⟩

/-- Comparator of `getStockSplits` and `calculateSplitAdjustments`:
ascending split date. -/
def splitDateLe (a b : StockSplit) : Prop :=
  a.splitDate ≤ b.splitDate

instance : DecidableRel splitDateLe := fun a b =>
  inferInstanceAs (Decidable (a.splitDate ≤ b.splitDate))

instance : IsTotal StockSplit splitDateLe :=
  ⟨fun a b => le_total a.splitDate b.splitDate⟩

instance : IsTrans StockSplit splitDateLe :=
  ⟨fun _ _ _ h1 h2 => le_trans h1 h2⟩

/-- Comparator used to keep `this.transactions` sorted in `addTransaction`:
by date, ties broken by transaction id. -/
def txSortLe (a b : Transaction) : Prop :=
  a.date < b.date ∨ (a.date = b.date ∧ a.id ≤ b.id)

instance : DecidableRel txSortLe := fun a b =>
  inferInstanceAs (Decidable (a.date < b.date ∨ (a.date = b.date ∧ a.id ≤ b.id)))

/-- JS `Math.abs` on the rationals. -/
def ratAbs (q : ℚ) : ℚ :=
  if q < 0 then -q else q

/-- JS `Math.min` on the rationals. -/
def ratMin (a b : ℚ) : ℚ :=
  if a ≤ b then a else b

/-- Result of `calculateSplitAdjustments`. -/
structure SplitAdjustments where
  totalRatio : ℚ
  appliedSplits : List StockSplit
  deriving DecidableEq, Repr

/-- `calculateSplitAdjustments(symbol, asOfDate)`: the cumulative ratio of all
registered splits of `symbol` dated strictly after `asOfDate`, multiplied in
chronological order, together with the splits considered. -/
def calculateSplitAdjustments (stockSplits : List StockSplit) (symbol : String)
    (asOfDate : ℤ) : SplitAdjustments :=
  let splits := List.insertionSort splitDateLe
    (stockSplits.filter fun s => s.symbol == symbol && decide (asOfDate < s.splitDate))
  { totalRatio := splits.foldl (fun r s => r * s.ratio) 1
    appliedSplits := splits }

/-- `createShareLot(buyTransaction)`: a new lot whose quantity/cost are
split-adjusted by the cumulative ratio for splits after the purchase date. -/
def createShareLot (stockSplits : List StockSplit) (buyTransaction : Transaction) :
    ShareLot :=
  let adjustments := calculateSplitAdjustments stockSplits buyTransaction.symbol
    buyTransaction.date
  let adjustedQuantity := buyTransaction.quantity * adjustments.totalRatio
  let adjustedPrice := buyTransaction.price / adjustments.totalRatio
  { id := buyTransaction.id
    symbol := buyTransaction.symbol
    purchaseDate := buyTransaction.date
    originalQuantity := adjustedQuantity
    remainingQuantity := adjustedQuantity
    costPerShare := adjustedPrice
    purchaseTransactionId := buyTransaction.id
    appliedSplits := adjustments.appliedSplits.map (fun s => s.id) }

/-- `getAvailableShareLots(symbol)`: lots of the symbol with shares remaining,
ordered oldest purchase first (FIFO). -/
def getAvailableShareLots (shareLots : List ShareLot) (symbol : String) :
    List ShareLot :=
  List.insertionSort lotDateLe
    (shareLots.filter fun lot => lot.symbol == symbol && decide (0 < lot.remainingQuantity))

/-- Options of `checkLotWashSale`: `existingTransactions` (a caller-supplied
history view, used by CSV import) takes precedence over `asOfDate` (scan only
transactions dated on or before it). -/
structure WashSaleOptions where
  asOfDate : Option ℤ
  existingTransactions : Option (List Transaction)
  deriving DecidableEq

/-- The wash-sale detail the source attaches to a flagged lot sale. -/
structure WashSaleDetails where
  disallowedLoss : ℚ
  conflictingPurchases : List Transaction
  deriving DecidableEq

/-- Result of `checkLotWashSale`. -/
structure WashSaleInfo where
  isWashSale : Bool
  details : Option WashSaleDetails
  deriving DecidableEq

/-- The scan predicate of `checkLotWashSale`: a buy of the same symbol dated
within the inclusive 61-day window `[sellDate - 30, sellDate + 30]`. -/
def conflictingPurchase (symbol : String) (sellDate : ℤ) (t : Transaction) : Bool :=
  t.symbol == symbol && t.type == TxType.buy &&
    decide (sellDate - 30 ≤ t.date) && decide (t.date ≤ sellDate + 30)

/-- `checkLotWashSale(lot, sharesSold, sellDate, pnl, options)`: a loss-sale
from `lot` is a wash sale when any same-symbol buy in the history view falls
in the ±30-day window around `sellDate`. -/
def checkLotWashSale (transactions : List Transaction) (lot : ShareLot)
    (sharesSold : ℚ) (sellDate : ℤ) (pnl : ℚ) (options : WashSaleOptions) :
    WashSaleInfo :=
  if 0 ≤ pnl then { isWashSale := false, details := none }
  else
    let transactionsToCheck :=
      match options.existingTransactions with
      | some txs => txs
      | none =>
        match options.asOfDate with
        | some d => transactions.filter fun t => decide (t.date ≤ d)
        | none => transactions
    let conflictingPurchases :=
      transactionsToCheck.filter (conflictingPurchase lot.symbol sellDate)
    if conflictingPurchases.isEmpty then { isWashSale := false, details := none }
    else
      { isWashSale := true
        details := some { disallowedLoss := ratAbs pnl
                          conflictingPurchases := conflictingPurchases } }

/-- One entry of `processFifoSale`'s `lotSales` output. -/
structure LotSale where
  lotId : Nat
  purchaseDate : ℤ
  sharesFromLot : ℚ
  costPerShare : ℚ
  sellPrice : ℚ
  costBasis : ℚ
  saleProceeds : ℚ
  pnl : ℚ
  isWashSale : Bool
  deriving DecidableEq, Repr

/-- Options of `processFifoSale`. -/
structure FifoOptions where
  allowPartial : Bool
  skipWashSaleCheck : Bool
  existingTransactions : Option (List Transaction)
  deriving DecidableEq

/-- The default (empty) options object `{}`. -/
def FifoOptions.strict : FifoOptions :=
  { allowPartial := false, skipWashSaleCheck := false, existingTransactions := none }

/-- Result of `processFifoSale`.  Fields the source leaves absent are given
their JS-falsy defaults (`partialProcessing = false`, `shortfall = 0`,
`error = none`). -/
structure FifoResult where
  success : Bool
  error : Option String
  lotSales : List LotSale
  totalPnL : ℚ
  totalWashSaleLoss : ℚ
  partialProcessing : Bool
  shortfall : ℚ
  deriving DecidableEq

/-- The body of `processFifoSale`'s allocation loop for one lot: consume
`min(remainingToSell, lot.remainingQuantity)` shares and evaluate the
wash-sale check on this lot sale. -/
def mkLotSale (transactions : List Transaction) (sellDate : ℤ) (sellPrice : ℚ)
    (skipWashSaleCheck : Bool) (wsOptions : WashSaleOptions) (lot : ShareLot)
    (remainingToSell : ℚ) : LotSale :=
  let sharesFromThisLot := ratMin remainingToSell lot.remainingQuantity
  let costBasis := lot.costPerShare * sharesFromThisLot
  let saleProceeds := sellPrice * sharesFromThisLot
  let pnl := saleProceeds - costBasis
  let washSaleInfo :=
    if skipWashSaleCheck then ({ isWashSale := false, details := none } : WashSaleInfo)
    else checkLotWashSale transactions lot sharesFromThisLot sellDate pnl wsOptions
  { lotId := lot.id
    purchaseDate := lot.purchaseDate
    sharesFromLot := sharesFromThisLot
    costPerShare := lot.costPerShare
    sellPrice := sellPrice
    costBasis := costBasis
    saleProceeds := saleProceeds
    pnl := pnl
    isWashSale := washSaleInfo.isWashSale }

/-- The `for (const lot of availableLots)` loop of `processFifoSale`: walk the
FIFO-ordered lots, stopping once `remainingToSell <= 0`; returns the lot sales
and the unallocated remainder. -/
def fifoSaleLoop (transactions : List Transaction) (sellDate : ℤ) (sellPrice : ℚ)
    (skipWashSaleCheck : Bool) (wsOptions : WashSaleOptions) :
    List ShareLot → ℚ → List LotSale × ℚ
  | [], remainingToSell => ([], remainingToSell)
  | lot :: rest, remainingToSell =>
    if remainingToSell ≤ 0 then ([], remainingToSell)
    else
      let sale := mkLotSale transactions sellDate sellPrice skipWashSaleCheck
        wsOptions lot remainingToSell
      let next := fifoSaleLoop transactions sellDate sellPrice skipWashSaleCheck
        wsOptions rest (remainingToSell - sale.sharesFromLot)
      (sale :: next.1, next.2)

/-- `processFifoSale(sellTransaction, options)`: split-adjust the sell, fetch
the FIFO-ordered available lots, fail (or degrade to a recorded shortfall under
`allowPartial`) when the adjusted quantity exceeds the shares available, and
otherwise allocate the sale across the lots oldest-first. -/
def processFifoSale (transactions : List Transaction) (shareLots : List ShareLot)
    (stockSplits : List StockSplit) (sellTransaction : Transaction)
    (options : FifoOptions) : FifoResult :=
  let symbol := sellTransaction.symbol
  let sellDate := sellTransaction.date
  let adjustments := calculateSplitAdjustments stockSplits symbol sellDate
  let sellQuantity := sellTransaction.quantity * adjustments.totalRatio
  let sellPrice := sellTransaction.price / adjustments.totalRatio
  let availableLots := getAvailableShareLots shareLots symbol
  if availableLots.isEmpty then
    if options.allowPartial then
      { success := true, error := none, lotSales := [], totalPnL := 0
        totalWashSaleLoss := 0, partialProcessing := true, shortfall := sellQuantity }
    else
      { success := false, error := some "No shares available to sell"
        lotSales := [], totalPnL := 0, totalWashSaleLoss := 0
        partialProcessing := false, shortfall := 0 }
  else
    let totalAvailable := availableLots.foldl (fun sum lot => sum + lot.remainingQuantity) 0
    if totalAvailable < sellQuantity ∧ ¬options.allowPartial then
      { success := false, error := some "Insufficient shares"
        lotSales := [], totalPnL := 0, totalWashSaleLoss := 0
        partialProcessing := false, shortfall := 0 }
    else
      let wsOptions : WashSaleOptions :=
        match options.existingTransactions with
        | some txs => { asOfDate := none, existingTransactions := some txs }
        | none => { asOfDate := some sellDate, existingTransactions := none }
      let loop := fifoSaleLoop transactions sellDate sellPrice
        options.skipWashSaleCheck wsOptions availableLots sellQuantity
      let lotSales := loop.1
      let remainingToSell := loop.2
      { success := true
        error := none
        lotSales := lotSales
        totalPnL := lotSales.foldl (fun sum sale => sum + sale.pnl) 0
        totalWashSaleLoss := lotSales.foldl
          (fun sum sale =>
            sum + (if sale.isWashSale ∧ sale.pnl < 0 then ratAbs sale.pnl else 0)) 0
        partialProcessing := decide (0 < remainingToSell) && options.allowPartial
        shortfall := if 0 < remainingToSell ∧ options.allowPartial then remainingToSell else 0 }

/-- `updateShareLotsAfterSale`'s per-sale update: subtract `sharesFromLot` from
the (first) lot with the sale's `lotId`. -/
def subtractFromLot (lotId : Nat) (shares : ℚ) : List ShareLot → List ShareLot
  | [] => []
  | lot :: rest =>
    if lot.id == lotId then
      { lot with remainingQuantity := lot.remainingQuantity - shares } :: rest
    else lot :: subtractFromLot lotId shares rest

/-- `updateShareLotsAfterSale(lotSales)`: reduce the remaining quantity of each
sold-from lot, then prune lots with nothing remaining. -/
def updateShareLotsAfterSale (shareLots : List ShareLot) (lotSales : List LotSale) :
    List ShareLot :=
  let updated := lotSales.foldl
    (fun lots sale => subtractFromLot sale.lotId sale.sharesFromLot lots) shareLots
  updated.filter fun lot => decide (0 < lot.remainingQuantity)

/-- The FIFO replay of a sell inside `getShareLotsAtDate`: record how many
shares are drawn from each available lot, walking them in FIFO order and
stopping once nothing remains to sell. -/
def replayAllocations : List ShareLot → ℚ → List (Nat × ℚ)
  | [], _ => []
  | lot :: rest, remainingToSell =>
    if remainingToSell ≤ 0 then []
    else
      let sharesFromThisLot := ratMin remainingToSell lot.remainingQuantity
      (lot.id, sharesFromThisLot) ::
        replayAllocations rest (remainingToSell - sharesFromThisLot)

/-- The sell branch of `getShareLotsAtDate`'s replay: allocate the sale
against the available lots (remaining shares, oldest purchase first) and
subtract the drawn shares.  The source mutates the lot objects through the
sorted view; here the allocations are computed on the sorted view and applied
back by lot id. -/
def replaySell (lots : List ShareLot) (quantity : ℚ) : List ShareLot :=
  let availableLots := List.insertionSort lotDateLe
    (lots.filter fun lot => decide (0 < lot.remainingQuantity))
  (replayAllocations availableLots quantity).foldl
    (fun ls a => subtractFromLot a.1 a.2 ls) lots

/-- `getShareLotsAtDate(symbol, targetDate)`: rebuild the lots of `symbol` as
they stood walking into `targetDate`, replaying only transactions of the
symbol dated strictly before it, sorted by date (ties by id). -/
def getShareLotsAtDate (transactions : List Transaction)
    (stockSplits : List StockSplit) (symbol : String) (targetDate : ℤ) :
    List ShareLot :=
  let transactionsUpToDate := List.insertionSort txSortLe
    (transactions.filter fun t => t.symbol == symbol && decide (t.date < targetDate))
  let lots := transactionsUpToDate.foldl
    (fun lots t =>
      match t.type with
      | TxType.buy => lots ++ [createShareLot stockSplits t]
      | TxType.sell => replaySell lots t.quantity)
    []
  List.insertionSort lotDateLe
    (lots.filter fun lot => decide (0 < lot.remainingQuantity))

/-- The non-null result of `getTransactionWashSaleStatus`. -/
structure TransactionWashSaleStatus where
  type : String
  loss : ℚ
  deriving DecidableEq, Repr

/-- The simulated FIFO loop of `getTransactionWashSaleStatus`: walk the lots
as of the sale date, and for each losing lot sale run `checkLotWashSale`
cut off at the sale date; returns whether any wash sale was found and the
total disallowed loss. -/
def washSaleStatusLoop (transactions : List Transaction) (sellDate : ℤ)
    (price : ℚ) : List ShareLot → ℚ → Bool × ℚ
  | [], _ => (false, 0)
  | lot :: rest, remainingToSell =>
    if remainingToSell ≤ 0 then (false, 0)
    else
      let sharesFromThisLot := ratMin remainingToSell lot.remainingQuantity
      let costBasis := lot.costPerShare * sharesFromThisLot
      let saleProceeds := price * sharesFromThisLot
      let pnl := saleProceeds - costBasis
      let here :=
        if pnl < 0 then
          let washSaleInfo := checkLotWashSale transactions lot sharesFromThisLot
            sellDate pnl { asOfDate := some sellDate, existingTransactions := none }
          (washSaleInfo.isWashSale, if washSaleInfo.isWashSale then ratAbs pnl else 0)
        else (false, 0)
      let later := washSaleStatusLoop transactions sellDate price rest
        (remainingToSell - sharesFromThisLot)
      (here.1 || later.1, here.2 + later.2)

/-- `getTransactionWashSaleStatus(targetTransaction)`: historical wash-sale
analysis of a recorded sell, simulating its FIFO allocation against the lots
as of the sale date and scanning only transactions dated on or before the
sale date (`asOfDate = sellDate`). -/
def getTransactionWashSaleStatus (transactions : List Transaction)
    (stockSplits : List StockSplit) (targetTransaction : Transaction) :
    Option TransactionWashSaleStatus :=
  if targetTransaction.type ≠ TxType.sell then none
  else
    let symbol := targetTransaction.symbol
    let sellDate := targetTransaction.date
    let lotsAtSaleTime := getShareLotsAtDate transactions stockSplits symbol sellDate
    if lotsAtSaleTime.isEmpty then none
    else
      let result := washSaleStatusLoop transactions sellDate
        targetTransaction.price lotsAtSaleTime targetTransaction.quantity
      if result.1 then some { type := "wash_sale_violation", loss := result.2 }
      else none

/-- The engine's persistent state. -/
structure EngineState where
  transactions : List Transaction
  shareLots : List ShareLot
  stockSplits : List StockSplit
  deriving DecidableEq

/-- The raw input of `addTransaction` (after the JS `parseInt`/`parseFloat`
coercions of the form fields). -/
structure RawTransaction where
  symbol : String
  type : TxType
  quantity : ℚ
  price : ℚ
  date : ℤ
  deriving DecidableEq

/-- The `washSaleViolation` payload `addTransaction` can attach to a recorded
transaction (messages omitted). -/
inductive WashSaleOutcome where
  | insufficientShares
  | washSaleViolation (loss : ℚ)
  | partialProcessing (shortfall : ℚ)
  deriving DecidableEq, Repr

/-- Result of `addTransaction`, with the post-call engine state made
explicit. -/
structure AddTransactionResult where
  state : EngineState
  transaction : Option Transaction
  washSaleViolation : Option WashSaleOutcome
  fifoResult : Option FifoResult
  deriving DecidableEq

/-- JS `String.prototype.toUpperCase` (ASCII): uppercase every character. -/
def toUpperString (s : String) : String :=
  String.mk (s.data.map Char.toUpper)

/-- The normalization `addTransaction` performs on its input: assign the id,
uppercase the symbol, compute `total`. -/
def normalizeTransaction (raw : RawTransaction) (newId : Nat) : Transaction :=
  { id := newId
    symbol := toUpperString raw.symbol
    type := raw.type
    quantity := raw.quantity
    price := raw.price
    total := raw.quantity * raw.price
    date := raw.date
    appliedSplits := [] }

/-- The sort `addTransaction` applies to `this.transactions` after a push. -/
def sortTransactions (transactions : List Transaction) : List Transaction :=
  List.insertionSort txSortLe transactions

/-- `addTransaction(transaction, options)`: normalize and record a trade.
A buy creates a lot; a sell runs the FIFO allocator, and on failure in strict
mode returns `transaction = null` without touching any state. -/
def addTransaction (st : EngineState) (raw : RawTransaction) (newId : Nat)
    (forceImport : Bool) : AddTransactionResult :=
  let t := normalizeTransaction raw newId
  match t.type with
  | TxType.buy =>
    let newLot := createShareLot st.stockSplits t
    { state := { st with
        shareLots := st.shareLots ++ [newLot]
        transactions := sortTransactions (st.transactions ++ [t]) }
      transaction := some t
      washSaleViolation := none
      fifoResult := none }
  | TxType.sell =>
    let processingOptions : FifoOptions :=
      if forceImport then
        { allowPartial := true, skipWashSaleCheck := true, existingTransactions := none }
      else FifoOptions.strict
    let fifoResult := processFifoSale st.transactions st.shareLots st.stockSplits t
      processingOptions
    if !fifoResult.success then
      if forceImport then
        { state := { st with
            transactions := sortTransactions (st.transactions ++ [t]) }
          transaction := some t
          washSaleViolation := some WashSaleOutcome.insufficientShares
          fifoResult := some fifoResult }
      else
        { state := st
          transaction := none
          washSaleViolation := some WashSaleOutcome.insufficientShares
          fifoResult := some fifoResult }
    else
      let updatedLots :=
        if fifoResult.lotSales.isEmpty then st.shareLots
        else updateShareLotsAfterSale st.shareLots fifoResult.lotSales
      let washSales := fifoResult.lotSales.filter fun sale => sale.isWashSale
      let washSaleResult : Option WashSaleOutcome :=
        if !washSales.isEmpty then
          some (WashSaleOutcome.washSaleViolation fifoResult.totalWashSaleLoss)
        else none
      let washSaleResult :=
        if fifoResult.partialProcessing then
          match washSaleResult with
          | some w => some w
          | none => some (WashSaleOutcome.partialProcessing fifoResult.shortfall)
        else washSaleResult
      { state := { st with
          shareLots := updatedLots
          transactions := sortTransactions (st.transactions ++ [t]) }
        transaction := some t
        washSaleViolation := washSaleResult
        fifoResult := some fifoResult }

/-- `getStockSplits(symbol)`: the registered splits of a symbol in date
order. -/
def getStockSplits (stockSplits : List StockSplit) (symbol : String) :
    List StockSplit :=
  List.insertionSort splitDateLe (stockSplits.filter fun s => s.symbol == symbol)

/-- The per-split body of `applyStockSplitsToLots` for one lot: a split dated
after the lot's purchase and not already recorded in `appliedSplits`
multiplies the quantities by the ratio, divides the cost per share by it, and
records the split id. -/
def applySplitToLot (lot : ShareLot) (split : StockSplit) : ShareLot :=
  if lot.purchaseDate < split.splitDate ∧ split.id ∉ lot.appliedSplits then
    { lot with
      originalQuantity := lot.originalQuantity * split.ratio
      remainingQuantity := lot.remainingQuantity * split.ratio
      costPerShare := lot.costPerShare / split.ratio
      appliedSplits := lot.appliedSplits ++ [split.id] }
  else lot

/-- The share-lot half of `applyStockSplitsToLots` for one lot: fold every
registered split of the lot's symbol, in date order, over the lot. -/
def applyStockSplitsToLot (stockSplits : List StockSplit) (lot : ShareLot) :
    ShareLot :=
  (getStockSplits stockSplits lot.symbol).foldl applySplitToLot lot

/-- The share-lot half of `applyStockSplitsToLots`. -/
def applyStockSplitsToLots (stockSplits : List StockSplit)
    (shareLots : List ShareLot) : List ShareLot :=
  shareLots.map (applyStockSplitsToLot stockSplits)

/-- The share-lot half of `undoStockSplit(splitId, ratio)` for one lot:
reverse the split arithmetic on a lot recording the split and drop the id
from `appliedSplits`. -/
def undoStockSplitOnLot (splitId : Nat) (ratio : ℚ) (lot : ShareLot) : ShareLot :=
  if splitId ∈ lot.appliedSplits then
    { lot with
      originalQuantity := lot.originalQuantity / ratio
      remainingQuantity := lot.remainingQuantity / ratio
      costPerShare := lot.costPerShare * ratio
      appliedSplits := lot.appliedSplits.filter fun id => id != splitId }
  else lot

/-- The share-lot half of `undoStockSplit(splitId, ratio)`. -/
def undoStockSplitOnLots (splitId : Nat) (ratio : ℚ)
    (shareLots : List ShareLot) : List ShareLot :=
  shareLots.map (undoStockSplitOnLot splitId ratio)

/-- `validateForm` of `src/app.js`: the UI-side validation run before
`addTransaction` is called; rejects an empty symbol, a non-positive (or
JS-falsy) quantity or price, and a missing date. -/
def validateForm (symbol : String) (quantity : ℚ) (price : ℚ)
    (date : Option ℤ) : Bool :=
  if symbol == "" then false
  else if quantity ≤ 0 then false
  else if price ≤ 0 then false
  else if date.isNone then false
  else true

/-! Concrete fixtures used as witnesses and counterexamples.  Days are counted
from 2024-01-01 (day 0), so 2024-01-15 is day 14 and 2024-01-20 is day 19. -/

/-- Scenario A, first leg: Buy 100 AAPL @ $200 on 2024-01-01. -/
def aaplBuyJan1 : Transaction :=
  { id := 1, symbol := "AAPL", type := TxType.buy, quantity := 100, price := 200
    total := 20000, date := 0, appliedSplits := [] }

/-- Scenario A, second leg: Sell 100 AAPL @ $150 on 2024-01-15. -/
def aaplSellJan15 : Transaction :=
  { id := 2, symbol := "AAPL", type := TxType.sell, quantity := 100, price := 150
    total := 15000, date := 14, appliedSplits := [] }

/-- Scenario A, third leg: Buy 100 AAPL @ $160 on 2024-01-20. -/
def aaplBuyJan20 : Transaction :=
  { id := 3, symbol := "AAPL", type := TxType.buy, quantity := 100, price := 160
    total := 16000, date := 19, appliedSplits := [] }

/-- A loss-sale far from the original purchase: Sell 100 AAPL @ $150 on day
151 (2024-05-31). -/
def aaplSellMay31 : Transaction :=
  { id := 2, symbol := "AAPL", type := TxType.sell, quantity := 100, price := 150
    total := 15000, date := 151, appliedSplits := [] }

/-- A repurchase nine days after `aaplSellMay31`: Buy 100 AAPL @ $160 on day
160 (2024-06-09), inside the 30-days-after window of that sale. -/
def aaplBuyJun9 : Transaction :=
  { id := 3, symbol := "AAPL", type := TxType.buy, quantity := 100, price := 160
    total := 16000, date := 160, appliedSplits := [] }

/-- The lot Scenario A's original purchase creates: 100 shares @ $200 on
day 0, no splits. -/
def lotFromBuyJan1 : ShareLot :=
  { id := 1, symbol := "AAPL", purchaseDate := 0, originalQuantity := 100
    remainingQuantity := 100, costPerShare := 200, purchaseTransactionId := 1
    appliedSplits := [] }

/-- A lot of 10 AAPL shares at $20, purchased on day 0. -/
def lotTen : ShareLot :=
  { id := 1, symbol := "AAPL", purchaseDate := 0, originalQuantity := 10
    remainingQuantity := 10, costPerShare := 20, purchaseTransactionId := 1
    appliedSplits := [] }

/-- An engine state holding `aaplBuyJan1` and the ten-share lot. -/
def stateOne : EngineState :=
  { transactions := [aaplBuyJan1], shareLots := [lotTen], stockSplits := [] }

/-- A raw sell of 20 AAPL @ $15 on day 5 — more shares than `stateOne` holds. -/
def rawSellTwenty : RawTransaction :=
  { symbol := "AAPL", type := TxType.sell, quantity := 20, price := 15, date := 5 }

/-- A raw buy with a negative quantity. -/
def rawNegativeBuy : RawTransaction :=
  { symbol := "AAPL", type := TxType.buy, quantity := -5, price := 10, date := 0 }

/-- The empty engine state. -/
def emptyState : EngineState :=
  { transactions := [], shareLots := [], stockSplits := [] }

/-- A buy exactly 30 days before a sale on day 40. -/
def buyAtWindowEdge : Transaction :=
  { id := 5, symbol := "AAPL", type := TxType.buy, quantity := 10, price := 10
    total := 100, date := 10, appliedSplits := [] }

/-- A buy 31 days after a sale on day 40. -/
def buyOutsideWindow : Transaction :=
  { id := 6, symbol := "AAPL", type := TxType.buy, quantity := 10, price := 10
    total := 100, date := 71, appliedSplits := [] }

/-- A 2:1 forward split of AAPL on day 31. -/
def splitTwoForOne : StockSplit :=
  { id := 9, symbol := "AAPL", splitDate := 31, ratio := 2 }

/-- A lot of 50 shares @ $10 purchased on day 0. -/
def lotFiftyEarly : ShareLot :=
  { id := 11, symbol := "AAPL", purchaseDate := 0, originalQuantity := 50
    remainingQuantity := 50, costPerShare := 10, purchaseTransactionId := 11
    appliedSplits := [] }

/-- A lot of 50 shares @ $20 purchased on day 31. -/
def lotFiftyLate : ShareLot :=
  { id := 12, symbol := "AAPL", purchaseDate := 31, originalQuantity := 50
    remainingQuantity := 50, costPerShare := 20, purchaseTransactionId := 12
    appliedSplits := [] }

/-- A recorded sell of 60 AAPL @ $15 on day 60. -/
def sellSixty : Transaction :=
  { id := 13, symbol := "AAPL", type := TxType.sell, quantity := 60, price := 15
    total := 900, date := 60, appliedSplits := [] }

section HelperLemmas

/-- Folding the running product of `calculateSplitAdjustments` equals the
product of the ratios. -/
theorem foldl_mul_ratio (l : List StockSplit) (init : ℚ) :
    l.foldl (fun r s => r * s.ratio) init = init * (l.map fun s => s.ratio).prod := by
  induction l generalizing init with
  | nil => simp
  | cons s rest ih => simp [ih, mul_assoc]

/-- The running sum of `processFifoSale`'s `totalAvailable` equals the sum of
the remaining quantities. -/
theorem foldl_add_remaining (l : List ShareLot) (init : ℚ) :
    l.foldl (fun sum lot => sum + lot.remainingQuantity) init
      = init + (l.map fun lot => lot.remainingQuantity).sum := by
  induction l generalizing init with
  | nil => simp
  | cons lot rest ih => simp [ih, add_assoc]

/-- `ratAbs` is the absolute value. -/
theorem ratAbs_eq_abs (q : ℚ) : ratAbs q = |q| := by
  unfold ratAbs
  rcases lt_or_le q 0 with h | h
  · rw [if_pos h, abs_of_neg h]
  · rw [if_neg (not_lt.mpr h), abs_of_nonneg h]

/-- `ratMin` is the lattice minimum. -/
theorem ratMin_eq_min (a b : ℚ) : ratMin a b = min a b := by
  unfold ratMin
  rw [min_def]

/-- Every lot `getAvailableShareLots` returns has shares remaining. -/
theorem getAvailableShareLots_pos (shareLots : List ShareLot) (symbol : String) :
    ∀ lot ∈ getAvailableShareLots shareLots symbol, 0 < lot.remainingQuantity := by
  intro lot hmem
  unfold getAvailableShareLots at hmem
  rw [List.mem_insertionSort] at hmem
  have := (List.mem_filter.mp hmem).2
  simp only [Bool.and_eq_true, decide_eq_true_eq] at this
  exact this.2

end HelperLemmas

/-- C8.  `calculateSplitAdjustments(symbol, asOfDate)` is forward-looking:
`totalRatio` is the product of the ratios of exactly the registered splits of
the symbol dated strictly after `asOfDate` (so `1` when there are none), and
`appliedSplits` lists exactly those splits, in chronological order; splits
dated on or before `asOfDate` contribute nothing. -/
theorem calculateSplitAdjustments_forward_looking (stockSplits : List StockSplit)
    (symbol : String) (asOfDate : ℤ) :
    (calculateSplitAdjustments stockSplits symbol asOfDate).totalRatio
        = ((stockSplits.filter fun s =>
            s.symbol == symbol && decide (asOfDate < s.splitDate)).map
              fun s => s.ratio).prod
      ∧ (calculateSplitAdjustments stockSplits symbol asOfDate).appliedSplits.Perm
          (stockSplits.filter fun s =>
            s.symbol == symbol && decide (asOfDate < s.splitDate))
      ∧ List.Sorted splitDateLe
          (calculateSplitAdjustments stockSplits symbol asOfDate).appliedSplits := by
  refine ⟨?_, ?_, ?_⟩
  · show (List.insertionSort splitDateLe _).foldl (fun r s => r * s.ratio) 1 = _
    rw [foldl_mul_ratio, one_mul]
    exact List.Perm.prod_eq ((List.perm_insertionSort splitDateLe _).map _)
  · exact List.perm_insertionSort splitDateLe _
  · exact List.sorted_insertionSort splitDateLe _

/-- C7.  `getShareLotsAtDate(symbol, D)` replays only transactions dated
strictly before `D`: two transaction logs agreeing on the entries dated
strictly before `D` (with the same split registry) yield identical lots, so
transactions dated on or after `D` have no effect on the result. -/
theorem getShareLotsAtDate_no_future_leakage (txs1 txs2 : List Transaction)
    (stockSplits : List StockSplit) (symbol : String) (targetDate : ℤ)
    (h : txs1.filter (fun t => decide (t.date < targetDate))
        = txs2.filter (fun t => decide (t.date < targetDate))) :
    getShareLotsAtDate txs1 stockSplits symbol targetDate
      = getShareLotsAtDate txs2 stockSplits symbol targetDate := by
  have key : txs1.filter (fun t => t.symbol == symbol && decide (t.date < targetDate))
      = txs2.filter (fun t => t.symbol == symbol && decide (t.date < targetDate)) := by
    rw [← List.filter_filter, ← List.filter_filter, h]
  unfold getShareLotsAtDate
  rw [key]

/-- For a loss and default options, `checkLotWashSale` answers whether the
scan of the full transaction list finds a conflicting purchase. -/
theorem checkLotWashSale_default_isWashSale (transactions : List Transaction)
    (lot : ShareLot) (sharesSold : ℚ) (sellDate : ℤ) (pnl : ℚ) (hpnl : pnl < 0) :
    (checkLotWashSale transactions lot sharesSold sellDate pnl
        { asOfDate := none, existingTransactions := none }).isWashSale
      = !(transactions.filter (conflictingPurchase lot.symbol sellDate)).isEmpty := by
  unfold checkLotWashSale
  rw [if_neg (not_le.mpr hpnl)]
  by_cases hE : (transactions.filter (conflictingPurchase lot.symbol sellDate)).isEmpty
  · simp [hE]
  · simp [hE]

/-- For a loss and an `asOfDate` cutoff, `checkLotWashSale` scans only
transactions dated on or before the cutoff. -/
theorem checkLotWashSale_asOf_isWashSale (transactions : List Transaction)
    (lot : ShareLot) (sharesSold : ℚ) (sellDate d : ℤ) (pnl : ℚ) (hpnl : pnl < 0) :
    (checkLotWashSale transactions lot sharesSold sellDate pnl
        { asOfDate := some d, existingTransactions := none }).isWashSale
      = !((transactions.filter fun t => decide (t.date ≤ d)).filter
            (conflictingPurchase lot.symbol sellDate)).isEmpty := by
  unfold checkLotWashSale
  rw [if_neg (not_le.mpr hpnl)]
  by_cases hE : ((transactions.filter fun t => decide (t.date ≤ d)).filter
      (conflictingPurchase lot.symbol sellDate)).isEmpty
  · rw [if_pos hE, hE]
    rfl
  · rw [if_neg hE]
    rw [Bool.not_eq_true] at hE
    rw [hE]
    rfl

/-- C2.  The wash-sale window of `checkLotWashSale` is inclusive on both ends:
for a lot-sale with negative pnl, a same-symbol buy dated exactly 30 days
before or exactly 30 days after the sell date yields `isWashSale = true`, and
when every same-symbol buy lies strictly outside the ±30-day window (for
example a buy 31 days away and no other buys) it yields `isWashSale = false`. -/
theorem checkLotWashSale_window_inclusive_boundary :
    (∀ (transactions : List Transaction) (lot : ShareLot) (buyT : Transaction)
        (sharesSold pnl : ℚ) (sellDate : ℤ),
        pnl < 0 → buyT ∈ transactions → buyT.symbol = lot.symbol →
        buyT.type = TxType.buy → buyT.date = sellDate - 30 →
        (checkLotWashSale transactions lot sharesSold sellDate pnl
          { asOfDate := none, existingTransactions := none }).isWashSale = true)
    ∧ (∀ (transactions : List Transaction) (lot : ShareLot) (buyT : Transaction)
        (sharesSold pnl : ℚ) (sellDate : ℤ),
        pnl < 0 → buyT ∈ transactions → buyT.symbol = lot.symbol →
        buyT.type = TxType.buy → buyT.date = sellDate + 30 →
        (checkLotWashSale transactions lot sharesSold sellDate pnl
          { asOfDate := none, existingTransactions := none }).isWashSale = true)
    ∧ (∀ (transactions : List Transaction) (lot : ShareLot)
        (sharesSold pnl : ℚ) (sellDate : ℤ),
        pnl < 0 →
        (∀ t ∈ transactions, t.symbol = lot.symbol → t.type = TxType.buy →
          t.date < sellDate - 30 ∨ sellDate + 30 < t.date) →
        (checkLotWashSale transactions lot sharesSold sellDate pnl
          { asOfDate := none, existingTransactions := none }).isWashSale = false) := by
  refine ⟨?_, ?_, ?_⟩
  · intro transactions lot buyT sharesSold pnl sellDate hpnl hmem hsym hty hdate
    rw [checkLotWashSale_default_isWashSale transactions lot sharesSold sellDate pnl hpnl]
    have hin : buyT ∈ transactions.filter (conflictingPurchase lot.symbol sellDate) := by
      refine List.mem_filter.mpr ⟨hmem, ?_⟩
      simp only [conflictingPurchase, hsym, hty, hdate, beq_self_eq_true,
        Bool.and_eq_true, decide_eq_true_eq, Bool.true_and]
      omega
    rw [List.isEmpty_eq_false_iff_exists_mem.mpr ⟨buyT, hin⟩]
    rfl
  · intro transactions lot buyT sharesSold pnl sellDate hpnl hmem hsym hty hdate
    rw [checkLotWashSale_default_isWashSale transactions lot sharesSold sellDate pnl hpnl]
    have hin : buyT ∈ transactions.filter (conflictingPurchase lot.symbol sellDate) := by
      refine List.mem_filter.mpr ⟨hmem, ?_⟩
      simp only [conflictingPurchase, hsym, hty, hdate, beq_self_eq_true,
        Bool.and_eq_true, decide_eq_true_eq, Bool.true_and]
      omega
    rw [List.isEmpty_eq_false_iff_exists_mem.mpr ⟨buyT, hin⟩]
    rfl
  · intro transactions lot sharesSold pnl sellDate hpnl hfar
    rw [checkLotWashSale_default_isWashSale transactions lot sharesSold sellDate pnl hpnl]
    have hnil : transactions.filter (conflictingPurchase lot.symbol sellDate) = [] := by
      rw [List.filter_eq_nil_iff]
      intro t hmem
      simp only [conflictingPurchase, Bool.and_eq_true, decide_eq_true_eq, beq_iff_eq,
        not_and, and_imp]
      intro hsym hty hlo
      have := hfar t hmem hsym hty
      omega
    rw [hnil]
    rfl

/-- C2 witness: with a loss-sale on day 40, a buy on day 10 (exactly 30 days
before) triggers the flag, a buy on day 70 (exactly 30 days after,
represented by the +30 case at sellDate 40) triggers it, and a lone buy on
day 71 (31 days after) does not. -/
theorem checkLotWashSale_window_inclusive_boundary_witness :
    (checkLotWashSale [buyAtWindowEdge] lotTen 10 40 (-50)
        { asOfDate := none, existingTransactions := none }).isWashSale = true
    ∧ (checkLotWashSale [{ buyAtWindowEdge with date := 70 }] lotTen 10 40 (-50)
        { asOfDate := none, existingTransactions := none }).isWashSale = true
    ∧ (checkLotWashSale [buyOutsideWindow] lotTen 10 40 (-50)
        { asOfDate := none, existingTransactions := none }).isWashSale = false := by
  refine ⟨?_, ?_, ?_⟩
  · exact checkLotWashSale_window_inclusive_boundary.1 [buyAtWindowEdge] lotTen
      buyAtWindowEdge 10 (-50) 40 (by norm_num) (by simp) (by decide) (by decide)
      (by decide)
  · exact checkLotWashSale_window_inclusive_boundary.2.1
      [{ buyAtWindowEdge with date := 70 }] lotTen { buyAtWindowEdge with date := 70 }
      10 (-50) 40 (by norm_num) (by simp) (by decide) (by decide) (by decide)
  · exact checkLotWashSale_window_inclusive_boundary.2.2 [buyOutsideWindow] lotTen
      10 (-50) 40 (by norm_num) (by decide)

/-- C10.  The scan of `checkLotWashSale` does not exclude the buy transaction
that created the lot being sold: for a lot sold at a loss whose purchase date
lies within the 30 days before the sell date, the originating purchase itself
counts as a conflicting purchase, so `isWashSale = true` even when no other
buy of the symbol exists. -/
theorem checkLotWashSale_counts_originating_purchase
    (transactions : List Transaction) (lot : ShareLot) (buyT : Transaction)
    (sharesSold pnl : ℚ) (sellDate : ℤ)
    (hpnl : pnl < 0) (hmem : buyT ∈ transactions)
    (hty : buyT.type = TxType.buy) (hsym : buyT.symbol = lot.symbol)
    (hid : buyT.id = lot.purchaseTransactionId)
    (hdate : buyT.date = lot.purchaseDate)
    (hlo : sellDate - 30 ≤ lot.purchaseDate) (hhi : lot.purchaseDate ≤ sellDate) :
    (checkLotWashSale transactions lot sharesSold sellDate pnl
      { asOfDate := some sellDate, existingTransactions := none }).isWashSale = true := by
  rw [checkLotWashSale_asOf_isWashSale transactions lot sharesSold sellDate sellDate
    pnl hpnl]
  have hin : buyT ∈ (transactions.filter fun t => decide (t.date ≤ sellDate)).filter
      (conflictingPurchase lot.symbol sellDate) := by
    refine List.mem_filter.mpr ⟨List.mem_filter.mpr ⟨hmem, ?_⟩, ?_⟩
    · simp only [decide_eq_true_eq, hdate]
      exact hhi
    · simp only [conflictingPurchase, hsym, hty, hdate, beq_self_eq_true,
        Bool.and_eq_true, decide_eq_true_eq, Bool.true_and]
      omega
  rw [List.isEmpty_eq_false_iff_exists_mem.mpr ⟨buyT, hin⟩]
  rfl

/-- C10 witness: the lot created by Scenario A's original purchase
(2024-01-01) is itself the conflicting purchase for the loss-sale on
2024-01-15, with no other buy recorded. -/
theorem checkLotWashSale_counts_originating_purchase_witness :
    (checkLotWashSale [aaplBuyJan1, aaplSellJan15] (createShareLot [] aaplBuyJan1)
      100 14 (-5000)
      { asOfDate := some 14, existingTransactions := none }).isWashSale = true :=
  checkLotWashSale_counts_originating_purchase [aaplBuyJan1, aaplSellJan15]
    (createShareLot [] aaplBuyJan1) aaplBuyJan1 100 (-5000) 14
    (by norm_num) (by simp) (by decide) (by decide) (by decide) (by decide)
    (by decide) (by decide)

/-- C1 counterexample: a same-symbol buy dated within the 30 days after a
loss-sale does not, by itself, cause `getTransactionWashSaleStatus` to report
a violation.  Here the sell on day 151 is at a loss (basis $200, sold at
$150), the buy on day 160 is 9 days after it, yet the status is `none`,
because the scan is cut off at the sell date (`asOfDate = sellDate`) and so
never sees the later buy. -/
theorem getTransactionWashSaleStatus_ignores_buy_after_sale :
    aaplBuyJun9.type = TxType.buy
    ∧ aaplBuyJun9.symbol = aaplSellMay31.symbol
    ∧ aaplSellMay31.date < aaplBuyJun9.date
    ∧ aaplBuyJun9.date ≤ aaplSellMay31.date + 30
    ∧ getTransactionWashSaleStatus [aaplBuyJan1, aaplSellMay31, aaplBuyJun9] []
        aaplSellMay31 = none := by
  with_unfolding_all decide

/-- C1 amended.  In Scenario A (Buy 100 AAPL @ $200 on 2024-01-01, Sell 100 @
$150 on 2024-01-15, Buy 100 @ $160 on 2024-01-20) the sell's status from
`getTransactionWashSaleStatus` is a `wash_sale_violation` with disallowed
loss exactly $5000 — but the trigger is the original 2024-01-01 purchase,
which falls in the 30 days before the sale: the result is identical when the
2024-01-20 buy is absent, since only transactions dated on or before the sell
date are scanned. -/
theorem scenarioA_wash_sale_violation_5000 :
    getTransactionWashSaleStatus [aaplBuyJan1, aaplSellJan15, aaplBuyJan20] []
        aaplSellJan15
      = some { type := "wash_sale_violation", loss := 5000 }
    ∧ getTransactionWashSaleStatus [aaplBuyJan1, aaplSellJan15] [] aaplSellJan15
      = some { type := "wash_sale_violation", loss := 5000 } := by
  constructor <;>
  norm_num [getTransactionWashSaleStatus, getShareLotsAtDate, washSaleStatusLoop,
    checkLotWashSale, conflictingPurchase, replaySell, replayAllocations,
    subtractFromLot, createShareLot, calculateSplitAdjustments, getAvailableShareLots,
    List.insertionSort, List.orderedInsert, ratAbs, ratMin, lotDateLe, splitDateLe,
    txSortLe, aaplBuyJan1, aaplSellJan15, aaplBuyJan20, lotFromBuyJan1]

/-- C3 counterexample: `addTransaction` does not reject a non-positive
quantity.  A buy of −5 shares is recorded: the transaction list grows, a
share lot is created, and the returned transaction is not null. -/
theorem addTransaction_records_nonpositive_quantity :
    rawNegativeBuy.quantity ≤ 0
    ∧ (addTransaction emptyState rawNegativeBuy 1 false).state ≠ emptyState
    ∧ (addTransaction emptyState rawNegativeBuy 1 false).transaction ≠ none
    ∧ (addTransaction emptyState rawNegativeBuy 1 false).state.transactions.length = 1
    ∧ (addTransaction emptyState rawNegativeBuy 1 false).state.shareLots.length = 1 := by
  have hlen : (addTransaction emptyState rawNegativeBuy 1 false).state.transactions.length
      = 1 := by
    norm_num [addTransaction, normalizeTransaction, sortTransactions,
      List.insertionSort, List.orderedInsert, rawNegativeBuy, emptyState]
  have htx : (addTransaction emptyState rawNegativeBuy 1 false).transaction
      = some (normalizeTransaction rawNegativeBuy 1) := by
    norm_num [addTransaction, rawNegativeBuy, normalizeTransaction]
  refine ⟨by norm_num [rawNegativeBuy], ?_, ?_, hlen, ?_⟩
  · intro heq
    rw [heq] at hlen
    simp [emptyState] at hlen
  · rw [htx]
    exact Option.some_ne_none _
  · norm_num [addTransaction, normalizeTransaction, createShareLot,
      calculateSplitAdjustments, sortTransactions, List.insertionSort,
      List.orderedInsert, rawNegativeBuy, emptyState]

/-- C3 amended.  Non-positive quantity or price is rejected by the UI's
`validateForm` before `addTransaction` is ever called; `addTransaction`
itself performs no such validation and records a buy unconditionally,
appending the transaction and creating a share lot. -/
theorem nonpositive_input_rejected_by_validateForm_not_addTransaction :
    (∀ (symbol : String) (quantity price : ℚ) (date : Option ℤ),
        quantity ≤ 0 ∨ price ≤ 0 → validateForm symbol quantity price date = false)
    ∧ (∀ (st : EngineState) (raw : RawTransaction) (newId : Nat),
        raw.type = TxType.buy →
        (addTransaction st raw newId false).transaction
            = some (normalizeTransaction raw newId)
          ∧ (addTransaction st raw newId false).state.transactions.length
            = st.transactions.length + 1
          ∧ (addTransaction st raw newId false).state.shareLots.length
            = st.shareLots.length + 1) := by
  constructor
  · intro symbol quantity price date h
    unfold validateForm
    split_ifs with h1 h2 h3 h4 <;> first | rfl | tauto
  · intro st raw newId hty
    obtain ⟨sym, ty, q, p, d⟩ := raw
    simp only [RawTransaction.type] at hty
    subst hty
    refine ⟨rfl, ?_, ?_⟩ <;>
    simp [addTransaction, normalizeTransaction, sortTransactions]

/-- C3 witness for the amended claim: the UI validation rejects the −5-share
buy, while `addTransaction` records it. -/
theorem nonpositive_input_witness :
    validateForm "AAPL" (-5) 10 (some 0) = false
    ∧ (addTransaction emptyState rawNegativeBuy 1 false).transaction
        = some (normalizeTransaction rawNegativeBuy 1)
    ∧ (addTransaction emptyState rawNegativeBuy 1 false).state.transactions.length
        = emptyState.transactions.length + 1 :=
  ⟨nonpositive_input_rejected_by_validateForm_not_addTransaction.1 "AAPL" (-5) 10
      (some 0) (Or.inl (by norm_num)),
    (nonpositive_input_rejected_by_validateForm_not_addTransaction.2 emptyState
      rawNegativeBuy 1 rfl).1,
    (nonpositive_input_rejected_by_validateForm_not_addTransaction.2 emptyState
      rawNegativeBuy 1 rfl).2.1⟩

/-- In strict mode, a split-adjusted sell quantity exceeding the available
shares makes `processFifoSale` fail with an insufficient-shares error and an
empty allocation. -/
theorem processFifoSale_strict_fail (transactions : List Transaction)
    (shareLots : List ShareLot) (stockSplits : List StockSplit) (t : Transaction)
    (h : (getAvailableShareLots shareLots t.symbol).foldl
          (fun sum lot => sum + lot.remainingQuantity) 0
        < t.quantity * (calculateSplitAdjustments stockSplits t.symbol t.date).totalRatio) :
    (processFifoSale transactions shareLots stockSplits t FifoOptions.strict).success
        = false
    ∧ (processFifoSale transactions shareLots stockSplits t FifoOptions.strict).lotSales
        = []
    ∧ (processFifoSale transactions shareLots stockSplits t FifoOptions.strict).error
        ≠ none := by
  by_cases hA : (getAvailableShareLots shareLots t.symbol).isEmpty
  · simp only [processFifoSale, hA, if_true, FifoOptions.strict]
    simp
  · have hA0 : (getAvailableShareLots shareLots t.symbol).foldl
        (fun sum lot => sum + lot.remainingQuantity) 0
        < t.quantity * (calculateSplitAdjustments stockSplits t.symbol t.date).totalRatio
        ∧ ¬(FifoOptions.strict.allowPartial = true) := ⟨h, by simp [FifoOptions.strict]⟩
    simp only [processFifoSale, hA, if_false, Bool.false_eq_true, if_pos hA0]
    simp

/-- C5.  In default (strict) mode, a sell whose split-adjusted quantity
exceeds the total available shares fails atomically: `processFifoSale`
returns `success = false` with an insufficient-shares error and an empty
`lotSales` list, `addTransaction` returns `transaction = null` with an
insufficient-shares violation, and the engine state — the transaction list
and every lot — is unchanged. -/
theorem addTransaction_strict_insufficient_is_atomic (st : EngineState)
    (raw : RawTransaction) (newId : Nat) (hty : raw.type = TxType.sell)
    (h : (getAvailableShareLots st.shareLots
            (normalizeTransaction raw newId).symbol).foldl
          (fun sum lot => sum + lot.remainingQuantity) 0
        < (normalizeTransaction raw newId).quantity *
          (calculateSplitAdjustments st.stockSplits
            (normalizeTransaction raw newId).symbol
            (normalizeTransaction raw newId).date).totalRatio) :
    (processFifoSale st.transactions st.shareLots st.stockSplits
        (normalizeTransaction raw newId) FifoOptions.strict).success = false
    ∧ (processFifoSale st.transactions st.shareLots st.stockSplits
        (normalizeTransaction raw newId) FifoOptions.strict).lotSales = []
    ∧ (processFifoSale st.transactions st.shareLots st.stockSplits
        (normalizeTransaction raw newId) FifoOptions.strict).error ≠ none
    ∧ (addTransaction st raw newId false).transaction = none
    ∧ (addTransaction st raw newId false).washSaleViolation
        = some WashSaleOutcome.insufficientShares
    ∧ (addTransaction st raw newId false).state = st := by
  obtain ⟨hs, hl, he⟩ := processFifoSale_strict_fail st.transactions st.shareLots
    st.stockSplits (normalizeTransaction raw newId) h
  refine ⟨hs, hl, he, ?_, ?_, ?_⟩ <;>
  · obtain ⟨sym, ty, q, p, d⟩ := raw
    simp only [RawTransaction.type] at hty
    subst hty
    simp only [normalizeTransaction] at hs
    simp [addTransaction, hs, normalizeTransaction]

/-- C5 witness: selling 20 AAPL against a single 10-share lot in strict mode
fails, records nothing, and leaves the state untouched. -/
theorem addTransaction_strict_insufficient_is_atomic_witness :
    (processFifoSale stateOne.transactions stateOne.shareLots stateOne.stockSplits
        (normalizeTransaction rawSellTwenty 7) FifoOptions.strict).success = false
    ∧ (processFifoSale stateOne.transactions stateOne.shareLots stateOne.stockSplits
        (normalizeTransaction rawSellTwenty 7) FifoOptions.strict).lotSales = []
    ∧ (processFifoSale stateOne.transactions stateOne.shareLots stateOne.stockSplits
        (normalizeTransaction rawSellTwenty 7) FifoOptions.strict).error ≠ none
    ∧ (addTransaction stateOne rawSellTwenty 7 false).transaction = none
    ∧ (addTransaction stateOne rawSellTwenty 7 false).washSaleViolation
        = some WashSaleOutcome.insufficientShares
    ∧ (addTransaction stateOne rawSellTwenty 7 false).state = stateOne :=
  addTransaction_strict_insufficient_is_atomic stateOne rawSellTwenty 7 rfl (by
    have hU : toUpperString "AAPL" = "AAPL" := by decide
    norm_num [getAvailableShareLots, normalizeTransaction, calculateSplitAdjustments,
      List.insertionSort, List.orderedInsert, rawSellTwenty, stateOne, lotTen,
      lotDateLe, aaplBuyJan1, hU])

/-- When the requested quantity strictly exceeds the shares in the walked
lots, `processFifoSale`'s allocation loop drains every lot completely and
returns exactly the shares it could not allocate. -/
theorem fifoSaleLoop_consumes_all (transactions : List Transaction) (sellDate : ℤ)
    (sellPrice : ℚ) (skipWashSaleCheck : Bool) (wsOptions : WashSaleOptions)
    (lots : List ShareLot) :
    ∀ q : ℚ, (∀ lot ∈ lots, 0 ≤ lot.remainingQuantity) →
      (lots.map fun l => l.remainingQuantity).sum < q →
      ((fifoSaleLoop transactions sellDate sellPrice skipWashSaleCheck wsOptions
          lots q).1.map fun sale => sale.sharesFromLot).sum
          = (lots.map fun l => l.remainingQuantity).sum
      ∧ (fifoSaleLoop transactions sellDate sellPrice skipWashSaleCheck wsOptions
          lots q).2 = q - (lots.map fun l => l.remainingQuantity).sum := by
  induction lots with
  | nil =>
    intro q _ _
    simp [fifoSaleLoop]
  | cons lot rest ih =>
    intro q hpos hlt
    have hrest : ∀ l ∈ rest, 0 ≤ l.remainingQuantity :=
      fun l hl => hpos l (List.mem_cons_of_mem _ hl)
    have hlot : 0 ≤ lot.remainingQuantity := hpos lot (List.mem_cons_self _ _)
    have hsum : 0 ≤ (rest.map fun l => l.remainingQuantity).sum := by
      refine List.sum_nonneg ?_
      intro x hx
      obtain ⟨l, hl, rfl⟩ := List.mem_map.mp hx
      exact hrest l hl
    rw [List.map_cons, List.sum_cons] at hlt
    have hq : 0 < q := lt_of_le_of_lt (add_nonneg hlot hsum) hlt
    have hltq : lot.remainingQuantity < q :=
      lt_of_le_of_lt (le_add_of_nonneg_right hsum) hlt
    have hmin : ratMin q lot.remainingQuantity = lot.remainingQuantity := by
      unfold ratMin
      rw [if_neg (not_le.mpr hltq)]
    have hshare : (mkLotSale transactions sellDate sellPrice skipWashSaleCheck
        wsOptions lot q).sharesFromLot = lot.remainingQuantity := by
      simp [mkLotSale, hmin]
    obtain ⟨ih1, ih2⟩ := ih (q - lot.remainingQuantity) hrest (by linarith)
    rw [fifoSaleLoop, if_neg (not_le.mpr hq)]
    simp only [hshare, List.map_cons, List.sum_cons]
    constructor
    · rw [ih1]
    · rw [ih2]
      ring

/-- C6.  Under the allow-partial policy a sell exceeding the available shares
still succeeds: `processFifoSale` with `allowPartial = true` consumes every
available share of the symbol, returns `success = true`, and reports a
shortfall equal to the split-adjusted shares that could not be allocated —
including the case where no lots exist at all. -/
theorem processFifoSale_allowPartial_consumes_all (transactions : List Transaction)
    (shareLots : List ShareLot) (stockSplits : List StockSplit)
    (sellTransaction : Transaction) (skipWashSaleCheck : Bool)
    (existingTransactions : Option (List Transaction))
    (h : ((getAvailableShareLots shareLots sellTransaction.symbol).map
          (fun lot => lot.remainingQuantity)).sum
        < sellTransaction.quantity *
          (calculateSplitAdjustments stockSplits sellTransaction.symbol
            sellTransaction.date).totalRatio) :
    (processFifoSale transactions shareLots stockSplits sellTransaction
        { allowPartial := true, skipWashSaleCheck := skipWashSaleCheck,
          existingTransactions := existingTransactions }).success = true
    ∧ ((processFifoSale transactions shareLots stockSplits sellTransaction
        { allowPartial := true, skipWashSaleCheck := skipWashSaleCheck,
          existingTransactions := existingTransactions }).lotSales.map
          fun sale => sale.sharesFromLot).sum
        = ((getAvailableShareLots shareLots sellTransaction.symbol).map
            fun lot => lot.remainingQuantity).sum
    ∧ (processFifoSale transactions shareLots stockSplits sellTransaction
        { allowPartial := true, skipWashSaleCheck := skipWashSaleCheck,
          existingTransactions := existingTransactions }).shortfall
        = sellTransaction.quantity *
            (calculateSplitAdjustments stockSplits sellTransaction.symbol
              sellTransaction.date).totalRatio
          - ((getAvailableShareLots shareLots sellTransaction.symbol).map
              fun lot => lot.remainingQuantity).sum
    ∧ (processFifoSale transactions shareLots stockSplits sellTransaction
        { allowPartial := true, skipWashSaleCheck := skipWashSaleCheck,
          existingTransactions := existingTransactions }).partialProcessing = true := by
  by_cases hA : (getAvailableShareLots shareLots sellTransaction.symbol).isEmpty
  · have hnil : getAvailableShareLots shareLots sellTransaction.symbol = [] :=
      List.isEmpty_iff.mp hA
    simp [processFifoSale, hA, hnil]
  · have hpos : ∀ lot ∈ getAvailableShareLots shareLots sellTransaction.symbol,
        0 ≤ lot.remainingQuantity :=
      fun lot hl => le_of_lt (getAvailableShareLots_pos shareLots
        sellTransaction.symbol lot hl)
    obtain ⟨hsum, hrem⟩ := fifoSaleLoop_consumes_all transactions
      sellTransaction.date
      (sellTransaction.price / (calculateSplitAdjustments stockSplits
        sellTransaction.symbol sellTransaction.date).totalRatio)
      skipWashSaleCheck
      (match existingTransactions with
        | some txs => { asOfDate := none, existingTransactions := some txs }
        | none => { asOfDate := some sellTransaction.date,
                    existingTransactions := none })
      (getAvailableShareLots shareLots sellTransaction.symbol)
      (sellTransaction.quantity *
        (calculateSplitAdjustments stockSplits sellTransaction.symbol
          sellTransaction.date).totalRatio)
      hpos h
    have hrempos : 0 < sellTransaction.quantity *
          (calculateSplitAdjustments stockSplits sellTransaction.symbol
            sellTransaction.date).totalRatio
        - ((getAvailableShareLots shareLots sellTransaction.symbol).map
            fun lot => lot.remainingQuantity).sum := by
      linarith
    simp only [processFifoSale]
    rw [if_neg hA, if_neg (fun hc => hc.2 trivial)]
    refine ⟨rfl, hsum, ?_, ?_⟩
    · simp only [hrem]
      rw [if_pos ⟨hrempos, trivial⟩]
    · simp [hrem, hrempos]

/-- C6 witness: selling 20 shares against a single 10-share lot with
`allowPartial` consumes all 10 shares, succeeds, and reports a 10-share
shortfall. -/
theorem processFifoSale_allowPartial_consumes_all_witness :
    (processFifoSale [aaplBuyJan1] [lotTen] [] sellSixty
        { allowPartial := true, skipWashSaleCheck := false,
          existingTransactions := none }).success = true
    ∧ ((processFifoSale [aaplBuyJan1] [lotTen] [] sellSixty
        { allowPartial := true, skipWashSaleCheck := false,
          existingTransactions := none }).lotSales.map
          fun sale => sale.sharesFromLot).sum
        = ((getAvailableShareLots [lotTen] sellSixty.symbol).map
            fun lot => lot.remainingQuantity).sum
    ∧ (processFifoSale [aaplBuyJan1] [lotTen] [] sellSixty
        { allowPartial := true, skipWashSaleCheck := false,
          existingTransactions := none }).shortfall
        = sellSixty.quantity *
            (calculateSplitAdjustments [] sellSixty.symbol sellSixty.date).totalRatio
          - ((getAvailableShareLots [lotTen] sellSixty.symbol).map
              fun lot => lot.remainingQuantity).sum
    ∧ (processFifoSale [aaplBuyJan1] [lotTen] [] sellSixty
        { allowPartial := true, skipWashSaleCheck := false,
          existingTransactions := none }).partialProcessing = true :=
  processFifoSale_allowPartial_consumes_all [aaplBuyJan1] [lotTen] [] sellSixty
    false none (by
      norm_num [getAvailableShareLots, calculateSplitAdjustments,
        List.insertionSort, List.orderedInsert, sellSixty, lotTen, lotDateLe])

/-- The FIFO view `getAvailableShareLots` returns is sorted by purchase
date. -/
theorem getAvailableShareLots_sorted (shareLots : List ShareLot) (symbol : String) :
    List.Pairwise lotDateLe (getAvailableShareLots shareLots symbol) := by
  unfold getAvailableShareLots
  exact List.sorted_insertionSort lotDateLe _

/-- Every lot sale the allocation loop emits carries the purchase date of one
of the walked lots. -/
theorem fifoSaleLoop_purchaseDate_mem (transactions : List Transaction)
    (sellDate : ℤ) (sellPrice : ℚ) (skipWashSaleCheck : Bool)
    (wsOptions : WashSaleOptions) (lots : List ShareLot) :
    ∀ (q : ℚ) (sale : LotSale),
      sale ∈ (fifoSaleLoop transactions sellDate sellPrice skipWashSaleCheck
        wsOptions lots q).1 →
      ∃ lot ∈ lots, sale.purchaseDate = lot.purchaseDate := by
  induction lots with
  | nil =>
    intro q sale h
    simp [fifoSaleLoop] at h
  | cons lot rest ih =>
    intro q sale h
    rw [fifoSaleLoop] at h
    by_cases hq : q ≤ 0
    · rw [if_pos hq] at h
      simp at h
    · rw [if_neg hq] at h
      rcases List.mem_cons.mp h with rfl | h2
      · exact ⟨lot, List.mem_cons_self _ _, rfl⟩
      · obtain ⟨l, hl, hd⟩ := ih _ sale h2
        exact ⟨l, List.mem_cons_of_mem _ hl, hd⟩

/-- The allocation loop emits lot sales in the order of the walked lots, so a
purchase-date-sorted input yields purchase-date-sorted lot sales. -/
theorem fifoSaleLoop_pairwise (transactions : List Transaction) (sellDate : ℤ)
    (sellPrice : ℚ) (skipWashSaleCheck : Bool) (wsOptions : WashSaleOptions)
    (lots : List ShareLot) :
    ∀ q : ℚ, List.Pairwise lotDateLe lots →
      List.Pairwise (fun a b => a.purchaseDate ≤ b.purchaseDate)
        (fifoSaleLoop transactions sellDate sellPrice skipWashSaleCheck
          wsOptions lots q).1 := by
  induction lots with
  | nil =>
    intro q _
    simp [fifoSaleLoop]
  | cons lot rest ih =>
    intro q hp
    rw [fifoSaleLoop]
    by_cases hq : q ≤ 0
    · rw [if_pos hq]
      exact List.Pairwise.nil
    · rw [if_neg hq]
      have hrest := (List.pairwise_cons.mp hp).2
      have hhead := (List.pairwise_cons.mp hp).1
      refine List.Pairwise.cons ?_ (ih _ hrest)
      intro sale hsale
      obtain ⟨l, hl, hd⟩ := fifoSaleLoop_purchaseDate_mem transactions sellDate
        sellPrice skipWashSaleCheck wsOptions rest _ sale hsale
      show (mkLotSale transactions sellDate sellPrice skipWashSaleCheck wsOptions
        lot q).purchaseDate ≤ sale.purchaseDate
      rw [hd]
      exact hhead l hl

/-- The lot ids of the emitted lot sales are exactly the ids of an initial
segment of the walked lots, in order. -/
theorem fifoSaleLoop_lotIds_prefix (transactions : List Transaction) (sellDate : ℤ)
    (sellPrice : ℚ) (skipWashSaleCheck : Bool) (wsOptions : WashSaleOptions)
    (lots : List ShareLot) :
    ∀ q : ℚ,
      ((fifoSaleLoop transactions sellDate sellPrice skipWashSaleCheck wsOptions
          lots q).1.map fun sale => sale.lotId)
        = ((lots.map fun lot => lot.id).take
            (fifoSaleLoop transactions sellDate sellPrice skipWashSaleCheck
              wsOptions lots q).1.length) := by
  induction lots with
  | nil =>
    intro q
    simp [fifoSaleLoop]
  | cons lot rest ih =>
    intro q
    rw [fifoSaleLoop]
    by_cases hq : q ≤ 0
    · rw [if_pos hq]
      simp
    · rw [if_neg hq]
      simp only [List.map_cons, List.length_cons, List.take_succ_cons]
      rw [ih]
      rfl

/-- A nonempty allocation means the loop started with a positive quantity. -/
theorem fifoSaleLoop_pos_of_ne_nil (transactions : List Transaction) (sellDate : ℤ)
    (sellPrice : ℚ) (skipWashSaleCheck : Bool) (wsOptions : WashSaleOptions)
    (lots : List ShareLot) (q : ℚ)
    (h : (fifoSaleLoop transactions sellDate sellPrice skipWashSaleCheck wsOptions
      lots q).1 ≠ []) : 0 < q := by
  by_contra hq
  push_neg at hq
  cases lots with
  | nil => exact h rfl
  | cons lot rest =>
    apply h
    rw [fifoSaleLoop, if_pos hq]

/-- No skipping: whenever the loop emits a later lot sale, each earlier lot
sale drained its lot completely. -/
theorem fifoSaleLoop_no_skip (transactions : List Transaction) (sellDate : ℤ)
    (sellPrice : ℚ) (skipWashSaleCheck : Bool) (wsOptions : WashSaleOptions)
    (lots : List ShareLot) :
    ∀ (q : ℚ) (i : ℕ),
      i + 1 < (fifoSaleLoop transactions sellDate sellPrice skipWashSaleCheck
        wsOptions lots q).1.length →
      ∃ sale lot,
        (fifoSaleLoop transactions sellDate sellPrice skipWashSaleCheck wsOptions
          lots q).1[i]? = some sale
        ∧ lots[i]? = some lot
        ∧ sale.sharesFromLot = lot.remainingQuantity
        ∧ sale.lotId = lot.id := by
  induction lots with
  | nil =>
    intro q i h
    simp [fifoSaleLoop] at h
  | cons lot rest ih =>
    intro q i h
    rw [fifoSaleLoop] at h ⊢
    by_cases hq : q ≤ 0
    · rw [if_pos hq] at h
      simp at h
    · rw [if_neg hq] at h ⊢
      cases i with
      | zero =>
        have htail : (fifoSaleLoop transactions sellDate sellPrice
            skipWashSaleCheck wsOptions rest
            (q - (mkLotSale transactions sellDate sellPrice skipWashSaleCheck
              wsOptions lot q).sharesFromLot)).1 ≠ [] := by
          intro hnil
          rw [List.length_cons, hnil] at h
          simp at h
        have hq2 := fifoSaleLoop_pos_of_ne_nil transactions sellDate sellPrice
          skipWashSaleCheck wsOptions rest _ htail
        have hshares : (mkLotSale transactions sellDate sellPrice
            skipWashSaleCheck wsOptions lot q).sharesFromLot
            = lot.remainingQuantity := by
          have hmin : (mkLotSale transactions sellDate sellPrice skipWashSaleCheck
              wsOptions lot q).sharesFromLot = ratMin q lot.remainingQuantity := rfl
          rw [hmin] at hq2 ⊢
          unfold ratMin at hq2 ⊢
          by_cases hle : q ≤ lot.remainingQuantity
          · rw [if_pos hle] at hq2
            simp at hq2
          · rw [if_neg hle]
        exact ⟨mkLotSale transactions sellDate sellPrice skipWashSaleCheck
          wsOptions lot q, lot, by simp, by simp, hshares, rfl⟩
      | succ j =>
        have h2 : j + 1 < (fifoSaleLoop transactions sellDate sellPrice
            skipWashSaleCheck wsOptions rest
            (q - (mkLotSale transactions sellDate sellPrice skipWashSaleCheck
              wsOptions lot q).sharesFromLot)).1.length := by
          rw [List.length_cons] at h
          omega
        obtain ⟨sale, l, h1, hl1, h3, h4⟩ := ih _ j h2
        exact ⟨sale, l, by simpa using h1, by simpa using hl1, h3, h4⟩

/-- C4.  FIFO allocation consumes oldest-purchased lots first: the lot sales
`processFifoSale` produces draw from the FIFO-sorted available lots as an
initial segment in ascending purchase-date order, and no share is taken from
a younger lot while an older lot still has shares — every lot sale with a
successor drains its lot's full `remainingQuantity`. -/
theorem processFifoSale_consumes_oldest_first (transactions : List Transaction)
    (shareLots : List ShareLot) (stockSplits : List StockSplit)
    (sellTransaction : Transaction) (options : FifoOptions) :
    ((processFifoSale transactions shareLots stockSplits sellTransaction
        options).lotSales.map fun sale => sale.lotId)
      = (((getAvailableShareLots shareLots sellTransaction.symbol).map
            fun lot => lot.id).take
          (processFifoSale transactions shareLots stockSplits sellTransaction
            options).lotSales.length)
    ∧ List.Pairwise (fun a b => a.purchaseDate ≤ b.purchaseDate)
        (processFifoSale transactions shareLots stockSplits sellTransaction
          options).lotSales
    ∧ ∀ i : ℕ,
        i + 1 < (processFifoSale transactions shareLots stockSplits
          sellTransaction options).lotSales.length →
        ∃ sale lot,
          (processFifoSale transactions shareLots stockSplits sellTransaction
            options).lotSales[i]? = some sale
          ∧ (getAvailableShareLots shareLots sellTransaction.symbol)[i]? = some lot
          ∧ sale.sharesFromLot = lot.remainingQuantity
          ∧ sale.lotId = lot.id := by
  simp only [processFifoSale]
  by_cases hA : (getAvailableShareLots shareLots sellTransaction.symbol).isEmpty
  · rw [if_pos hA]
    by_cases hP : options.allowPartial = true
    · rw [if_pos hP]
      refine ⟨by simp, List.Pairwise.nil, ?_⟩
      intro i hi
      simp at hi
    · rw [if_neg hP]
      refine ⟨by simp, List.Pairwise.nil, ?_⟩
      intro i hi
      simp at hi
  · rw [if_neg hA]
    by_cases hI : (getAvailableShareLots shareLots sellTransaction.symbol).foldl
          (fun sum lot => sum + lot.remainingQuantity) 0
        < sellTransaction.quantity *
          (calculateSplitAdjustments stockSplits sellTransaction.symbol
            sellTransaction.date).totalRatio
        ∧ ¬options.allowPartial = true
    · rw [if_pos hI]
      refine ⟨by simp, List.Pairwise.nil, ?_⟩
      intro i hi
      simp at hi
    · rw [if_neg hI]
      refine ⟨?_, ?_, ?_⟩
      · exact fifoSaleLoop_lotIds_prefix transactions sellTransaction.date
          (sellTransaction.price / (calculateSplitAdjustments stockSplits
            sellTransaction.symbol sellTransaction.date).totalRatio)
          options.skipWashSaleCheck _
          (getAvailableShareLots shareLots sellTransaction.symbol) _
      · exact fifoSaleLoop_pairwise transactions sellTransaction.date
          (sellTransaction.price / (calculateSplitAdjustments stockSplits
            sellTransaction.symbol sellTransaction.date).totalRatio)
          options.skipWashSaleCheck _
          (getAvailableShareLots shareLots sellTransaction.symbol) _
          (getAvailableShareLots_sorted shareLots sellTransaction.symbol)
      · exact fun i hi => fifoSaleLoop_no_skip transactions sellTransaction.date
          (sellTransaction.price / (calculateSplitAdjustments stockSplits
            sellTransaction.symbol sellTransaction.date).totalRatio)
          options.skipWashSaleCheck _
          (getAvailableShareLots shareLots sellTransaction.symbol) _ i hi

/-- C4 witness: selling 60 shares against a 50-share day-0 lot and a 50-share
day-31 lot draws 50 shares from the older lot (draining it) and 10 from the
younger one, in purchase-date order. -/
theorem processFifoSale_consumes_oldest_first_witness :
    (0 : ℕ) + 1 < (processFifoSale [aaplBuyJan1] [lotFiftyEarly, lotFiftyLate] []
        sellSixty FifoOptions.strict).lotSales.length
    ∧ ∃ sale lot,
        (processFifoSale [aaplBuyJan1] [lotFiftyEarly, lotFiftyLate] [] sellSixty
          FifoOptions.strict).lotSales[0]? = some sale
        ∧ (getAvailableShareLots [lotFiftyEarly, lotFiftyLate] sellSixty.symbol)[0]?
            = some lot
        ∧ sale.sharesFromLot = lot.remainingQuantity
        ∧ sale.lotId = lot.id := by
  have hlen : (processFifoSale [aaplBuyJan1] [lotFiftyEarly, lotFiftyLate] []
      sellSixty FifoOptions.strict).lotSales.length = 2 := by
    norm_num [processFifoSale, getAvailableShareLots, calculateSplitAdjustments,
      fifoSaleLoop, mkLotSale, checkLotWashSale, conflictingPurchase, ratMin,
      List.insertionSort, List.orderedInsert, lotDateLe, FifoOptions.strict,
      sellSixty, lotFiftyEarly, lotFiftyLate, aaplBuyJan1]
  refine ⟨by omega, ?_⟩
  exact (processFifoSale_consumes_oldest_first [aaplBuyJan1]
    [lotFiftyEarly, lotFiftyLate] [] sellSixty FifoOptions.strict).2.2 0
    (by omega)

/-- C9.  Split apply followed by undo is a round-trip: for a lot affected by
applying a split (registered alone, dated after the lot's purchase, not yet
recorded on the lot) and then undoing that same split with the same id and
ratio, the apply step records the split id in `appliedSplits`, and the undo
step restores `originalQuantity`, `remainingQuantity`, `costPerShare` — in
fact the whole lot — exactly, removing the id from `appliedSplits`. -/
theorem applyStockSplitsToLot_undo_round_trip (s : StockSplit) (lot : ShareLot)
    (hr : s.ratio ≠ 0) (hsym : s.symbol = lot.symbol)
    (hd : lot.purchaseDate < s.splitDate) (hnew : s.id ∉ lot.appliedSplits) :
    (applyStockSplitsToLot [s] lot).appliedSplits = lot.appliedSplits ++ [s.id]
    ∧ undoStockSplitOnLot s.id s.ratio (applyStockSplitsToLot [s] lot) = lot := by
  have happ : applyStockSplitsToLot [s] lot
      = { lot with
          originalQuantity := lot.originalQuantity * s.ratio
          remainingQuantity := lot.remainingQuantity * s.ratio
          costPerShare := lot.costPerShare / s.ratio
          appliedSplits := lot.appliedSplits ++ [s.id] } := by
    unfold applyStockSplitsToLot getStockSplits
    simp only [List.filter_cons, List.filter_nil, hsym, beq_self_eq_true, if_true,
      List.insertionSort, List.orderedInsert, List.foldl_cons, List.foldl_nil]
    unfold applySplitToLot
    rw [if_pos ⟨hd, hnew⟩]
  have hfil : (lot.appliedSplits ++ [s.id]).filter (fun id => id != s.id)
      = lot.appliedSplits := by
    rw [List.filter_append]
    have h1 : lot.appliedSplits.filter (fun id => id != s.id) = lot.appliedSplits :=
      List.filter_eq_self.mpr (fun a ha =>
        bne_iff_ne.mpr (fun e => hnew (e ▸ ha)))
    have h2 : [s.id].filter (fun id => id != s.id) = [] := by simp
    rw [h1, h2, List.append_nil]
  refine ⟨by rw [happ], ?_⟩
  rw [happ]
  unfold undoStockSplitOnLot
  rw [if_pos (by simp : s.id ∈ lot.appliedSplits ++ [s.id])]
  obtain ⟨lid, lsym, lpd, loq, lrq, lcps, lpti, las⟩ := lot
  simp only at hfil ⊢
  simp only [ShareLot.mk.injEq]
  refine ⟨trivial, trivial, trivial, ?_, ?_, ?_, trivial, hfil⟩
  · exact mul_div_cancel_right₀ loq hr
  · exact mul_div_cancel_right₀ lrq hr
  · exact div_mul_cancel₀ lcps hr

/-- C9 witness: a 2:1 split on day 31 applied to the day-0 ten-share lot and
then undone restores the lot exactly. -/
theorem applyStockSplitsToLot_undo_round_trip_witness :
    (applyStockSplitsToLot [splitTwoForOne] lotTen).appliedSplits
        = lotTen.appliedSplits ++ [splitTwoForOne.id]
    ∧ undoStockSplitOnLot splitTwoForOne.id splitTwoForOne.ratio
        (applyStockSplitsToLot [splitTwoForOne] lotTen) = lotTen :=
  applyStockSplitsToLot_undo_round_trip splitTwoForOne lotTen
    (by norm_num [splitTwoForOne]) (by decide) (by decide) (by decide)

/-- C7 witness: adding a transaction dated on/after the target date
(2024-01-20 ≥ 2024-01-15) does not change the reconstructed lots. -/
theorem getShareLotsAtDate_no_future_leakage_witness :
    ([aaplBuyJan1].filter (fun t => decide (t.date < 14))
        = [aaplBuyJan1, aaplBuyJan20].filter (fun t => decide (t.date < 14)))
    ∧ getShareLotsAtDate [aaplBuyJan1] [] "AAPL" 14
        = getShareLotsAtDate [aaplBuyJan1, aaplBuyJan20] [] "AAPL" 14 := by
  have h : [aaplBuyJan1].filter (fun t => decide (t.date < 14))
      = [aaplBuyJan1, aaplBuyJan20].filter (fun t => decide (t.date < 14)) := by
    norm_num [aaplBuyJan1, aaplBuyJan20]
  exact ⟨h, getShareLotsAtDate_no_future_leakage [aaplBuyJan1]
    [aaplBuyJan1, aaplBuyJan20] [] "AAPL" 14 h⟩
